import Mathlib

/-!
Verification development for the Ralph Orchestrator engine.

The definitions below are a shallow embedding of the orchestration core:
the output parsers of ProcessManager and Verifier, the task-selection and
task-execution logic of Orchestrator, the repository catalog operations of
StateManager, the workspace tasks.json writer, and an admission-control
transition system for the parallel-project cap.  Each definition carries a
doc comment naming the source function it embeds.  Strings are treated as
their underlying character lists; substring tests mirror the JavaScript
String.prototype.includes used by the source.
-/

namespace Ralph

/-- Embeds the JavaScript expression haystack.includes(needle): true exactly
when the needle occurs as a contiguous substring of the haystack. -/
def includes (s sub : String) : Bool :=
  decide (sub.data <:+: s.data)

/-- Embeds the JavaScript String.prototype.toLowerCase as a character-wise
lowering of the underlying character list. -/
def toLowerCase (s : String) : String :=
  String.mk (s.data.map Char.toLower)

/-- Embeds the JavaScript emptiness test on a trimmed string, as in the
source expression !diffCheck.output.trim(): the trimmed string is empty
exactly when every character is whitespace. -/
def trimmedEmpty (s : String) : Bool :=
  s.data.all Char.isWhitespace

theorem includes_eq_true_iff (s sub : String) :
    includes s sub = true ↔ sub.data <:+: s.data := by
  simp [includes]

theorem includes_eq_false_iff (s sub : String) :
    includes s sub = false ↔ ¬ sub.data <:+: s.data := by
  simp [includes]

/-! ### StateManager: data model -/

/-- Task status union from StateManager.ts line 8. -/
inductive TaskStatus where
  | backlog
  | in_progress
  | verifying
  | done
  | blocked
deriving DecidableEq, Repr

/-- Project status union from StateManager.ts line 7. -/
inductive ProjectStatus where
  | idle
  | running
  | paused
  | completed
  | failed
deriving DecidableEq, Repr

/-- Task record from StateManager.ts lines 80 to 95.  Timestamps are
abstracted to natural numbers; the fields description, acceptanceCriteria,
logs, createdAt and updatedAt are not referenced by any claim under
verification and are omitted. -/
structure Task where
  id : String
  title : String
  status : TaskStatus
  priority : Int
  attempts : Nat
  startedAt : Option Nat
  verifyingAt : Option Nat
  completedAt : Option Nat
deriving DecidableEq, Repr

/-- Project record from StateManager.ts lines 97 to 113, restricted to the
fields the claims under verification read. -/
structure Project where
  id : String
  repositoryId : String
  status : ProjectStatus
  tasks : List Task
deriving DecidableEq, Repr

/-- Repository record from StateManager.ts lines 61 to 71, restricted to
the fields the claims under verification read. -/
structure Repository where
  id : String
  url : String
deriving DecidableEq, Repr

/-- Settings record from StateManager.ts lines 115 to 120; the path and
executable strings are not referenced by any claim under verification. -/
structure Settings where
  maxParallelProjects : Nat
  maxTaskAttempts : Nat
deriving DecidableEq, Repr

/-- Persistent application state from StateManager.ts lines 122 to 126. -/
structure AppState where
  repositories : List Repository
  projects : List Project
  settings : Settings
deriving DecidableEq, Repr

/-- Embeds StateManager.getProject, StateManager.ts lines 388 to 390:
first project in the in-memory state with the given id. -/
def getProject (state : AppState) (id : String) : Option Project :=
  state.projects.find? (fun p => decide (p.id = id))

/-- Embeds StateManager.deleteRepository, StateManager.ts lines 368 to
381: if any project references the repository, an error is thrown before
any mutation; otherwise the first repository with the given id, if any, is
removed by findIndex plus splice.  The pair carries the state after the
call together with the result, where the thrown error is an error value. -/
def deleteRepository (state : AppState) (id : String) : AppState × Except String Bool :=
  if state.projects.any (fun p => decide (p.repositoryId = id)) then
    (state, .error "Cannot delete repository with existing projects")
  else
    match state.repositories.findIdx? (fun r => decide (r.id = id)) with
    | none => (state, .ok false)
    | some index => ({ state with repositories := state.repositories.eraseIdx index }, .ok true)

/-! ### StateManager: workspace tasks.json writer -/

/-- Filesystem operations performed by the workspace writer, in program
order.  The renameSync constructor is included so that the presence or
absence of an atomic temp-plus-rename step is expressible. -/
inductive FsOp where
  | mkdirRecursive (path : String)
  | writeFileSync (path : String) (contents : String)
  | renameSync (src dst : String)
deriving DecidableEq, Repr

/-- True exactly on rename operations. -/
def FsOp.isRename : FsOp → Bool
  | .renameSync _ _ => true
  | _ => false

/-- Path join as used by the source via path.join. -/
def joinPath (a b : String) : String := a ++ "/" ++ b

/-- Embeds StateManager.writeWorkspaceTasks, StateManager.ts lines 653 to
671, as the trace of filesystem operations it performs: if the ralph
folder path resolves (project and repository exist) the directory is
created when missing and the serialized data is written directly to
tasks.json with a single writeFileSync; the Boolean is the returned
success flag.  The serialized argument abstracts JSON.stringify of the
data; the catch-all error path of the try block is not modelled. -/
def writeWorkspaceTasks (ralphPath : Option String) (ralphDirExists : Bool)
    (serialized : String) : Bool × List FsOp :=
  match ralphPath with
  | none => (false, [])
  | some rp =>
    let tasksPath := joinPath rp "tasks.json"
    (true, (if ralphDirExists then [] else [FsOp.mkdirRecursive rp]) ++
      [FsOp.writeFileSync tasksPath serialized])

/-! ### Orchestrator: task execution, blocked path -/

/-- Embeds the blocked path of Orchestrator.workOnTask, Orchestrator.ts
lines 236 to 296, for one loop iteration on the selected task.  The first
update (lines 238 to 244) stores status in_progress, the incremented
attempts counter, startedAt only if not already set, and clears
verifyingAt and completedAt.  After the agent reports TASK_BLOCKED, the
exhaustion check (line 277) compares settings.maxTaskAttempts against the
attempts field of the captured task object, which still holds the value
from before the update because updateTask replaces the array element with
a fresh object.  The parameter now abstracts the wall-clock timestamps of
the iteration. -/
def workOnTaskBlockedStep (maxTaskAttempts : Nat) (now : Nat) (task : Task) : Task :=
  let updated : Task :=
    { task with
        status := .in_progress
        attempts := task.attempts + 1
        startedAt := some (task.startedAt.getD now)
        verifyingAt := none
        completedAt := none }
  if maxTaskAttempts ≤ task.attempts then
    { updated with status := .blocked, completedAt := some now }
  else
    updated

/-- Iterates the blocked path of Orchestrator.workOnTask for an agent that
always reports TASK_BLOCKED.  Between iterations the run loop re-reads the
project and re-selects the same task, since it remains in_progress; the
timestamp of each iteration is taken to be its attempt index. -/
def blockedRun (maxTaskAttempts : Nat) : Nat → Task → Task
  | 0, task => task
  | k + 1, task =>
      blockedRun maxTaskAttempts k
        (workOnTaskBlockedStep maxTaskAttempts (task.attempts + 1) task)

/-- A fresh backlog task with no attempts, as created by
StateManager.createTask. -/
def freshTask : Task :=
  { id := "T1", title := "Task one", status := .backlog, priority := 0,
    attempts := 0, startedAt := none, verifyingAt := none, completedAt := none }

/-! ### Orchestrator: task selection -/

/-- Boolean rendering of the comparator passed to the JavaScript stable
sort in getNextTask, Orchestrator.ts line 212: a sorts no later than b
when its priority is less or equal. -/
def taskPriorityLE (a b : Task) : Bool := decide (a.priority ≤ b.priority)

/-- Embeds Orchestrator.getNextTask, Orchestrator.ts lines 195 to 215:
first task in in_progress, else first task in verifying, else the head of
the backlog tasks stably sorted by ascending priority (JavaScript
Array.prototype.sort is stable, which mergeSort models), else none. -/
def getNextTask (tasks : List Task) : Option Task :=
  match tasks.find? (fun t => decide (t.status = TaskStatus.in_progress)) with
  | some t => some t
  | none =>
    match tasks.find? (fun t => decide (t.status = TaskStatus.verifying)) with
    | some t => some t
    | none =>
      ((tasks.filter (fun t => decide (t.status = TaskStatus.backlog))).mergeSort
        taskPriorityLE).head?

/-- Modelled from the claim wording, for comparison with the sorted-head
computation of the source: the first task of the list attaining the
minimum priority value, with equal-priority ties resolved in favor of the
earlier list position. -/
def lowestPriorityFirst : List Task → Option Task
  | [] => none
  | t :: ts =>
    match lowestPriorityFirst ts with
    | none => some t
    | some m => if t.priority ≤ m.priority then some t else some m

theorem taskPriorityLE_trans (a b c : Task) :
    taskPriorityLE a b = true → taskPriorityLE b c = true → taskPriorityLE a c = true := by
  simp only [taskPriorityLE, decide_eq_true_iff]
  omega

theorem taskPriorityLE_total (a b : Task) :
    (taskPriorityLE a b || taskPriorityLE b a) = true := by
  simp only [taskPriorityLE, Bool.or_eq_true, decide_eq_true_iff]
  omega

/-- Head of the stable sort by ascending priority is the first task
attaining the minimum priority. -/
theorem head?_mergeSort_taskPriorityLE (l : List Task) :
    (l.mergeSort taskPriorityLE).head? = lowestPriorityFirst l := by
  induction l with
  | nil => simp [lowestPriorityFirst]
  | cons t ts ih =>
    obtain ⟨l₁, l₂, h₁, h₂, h₃⟩ :=
      List.mergeSort_cons taskPriorityLE_trans taskPriorityLE_total t ts
    cases l₁ with
    | nil =>
      rw [h₁]
      simp only [List.nil_append, List.head?_cons]
      rw [h₂] at ih
      cases hm : lowestPriorityFirst ts with
      | none => simp [lowestPriorityFirst, hm]
      | some m =>
        rw [hm] at ih
        have hsorted := List.sorted_mergeSort taskPriorityLE_trans taskPriorityLE_total (t :: ts)
        rw [h₁, List.nil_append] at hsorted
        cases l₂ with
        | nil => simp at ih
        | cons m' l₂' =>
          have hmm : m' = m := by simpa using ih
          subst hmm
          have hle : taskPriorityLE t m' = true :=
            (List.pairwise_cons.mp hsorted).1 m' (List.mem_cons_self m' l₂')
          have hle' : t.priority ≤ m'.priority := by
            simpa [taskPriorityLE] using hle
          simp [lowestPriorityFirst, hm, hle']
    | cons b l₁' =>
      rw [h₁]
      simp only [List.cons_append, List.head?_cons]
      rw [h₂] at ih
      simp only [List.cons_append, List.head?_cons] at ih
      have hnb : ¬ t.priority ≤ b.priority := by
        have := h₃ b (List.mem_cons_self b l₁')
        simpa [taskPriorityLE] using this
      simp [lowestPriorityFirst, ← ih, hnb]

theorem lowestPriorityFirst_eq_none_iff (l : List Task) :
    lowestPriorityFirst l = none ↔ l = [] := by
  cases l with
  | nil => simp [lowestPriorityFirst]
  | cons t ts =>
    simp only [lowestPriorityFirst]
    cases lowestPriorityFirst ts <;> simp
    split <;> simp

theorem lowestPriorityFirst_spec (l : List Task) :
    ∀ m, lowestPriorityFirst l = some m → m ∈ l ∧ ∀ u ∈ l, m.priority ≤ u.priority := by
  induction l with
  | nil => intro m h; simp [lowestPriorityFirst] at h
  | cons t ts ih =>
    intro m h
    simp only [lowestPriorityFirst] at h
    cases hm : lowestPriorityFirst ts with
    | none =>
      rw [hm] at h
      have h' : some t = some m := h
      cases h'
      have hts : ts = [] := (lowestPriorityFirst_eq_none_iff ts).mp hm
      subst hts
      simp
    | some m' =>
      rw [hm] at h
      have h' : (if t.priority ≤ m'.priority then some t else some m') = some m := h
      rcases ih m' hm with ⟨hmem, hmin⟩
      by_cases hle : t.priority ≤ m'.priority
      · rw [if_pos hle] at h'
        cases h'
        refine ⟨List.mem_cons_self t ts, ?_⟩
        intro u hu
        rcases List.mem_cons.mp hu with rfl | hu
        · exact le_refl _
        · exact le_trans hle (hmin u hu)
      · rw [if_neg hle] at h'
        cases h'
        refine ⟨List.mem_cons_of_mem _ hmem, ?_⟩
        intro u hu
        rcases List.mem_cons.mp hu with rfl | hu
        · omega
        · exact hmin u hu

/-- When no task is in_progress or verifying, getNextTask reduces to the
first backlog task of minimum priority. -/
theorem getNextTask_of_no_active (tasks : List Task)
    (h : ∀ t ∈ tasks, t.status ≠ TaskStatus.in_progress ∧ t.status ≠ TaskStatus.verifying) :
    getNextTask tasks =
      lowestPriorityFirst (tasks.filter (fun t => decide (t.status = TaskStatus.backlog))) := by
  have hfIn : tasks.find? (fun t => decide (t.status = TaskStatus.in_progress)) = none :=
    List.find?_eq_none.mpr (fun x hx => by simpa using (h x hx).1)
  have hfVer : tasks.find? (fun t => decide (t.status = TaskStatus.verifying)) = none :=
    List.find?_eq_none.mpr (fun x hx => by simpa using (h x hx).2)
  simp only [getNextTask, hfIn, hfVer]
  exact head?_mergeSort_taskPriorityLE _

/-! ### Orchestrator: run-loop selection source -/

/-- Combined system state for the selection step: the in-memory state of
the StateManager and the current content of the workspace ralph tasks.json
file, which an external writer (the agent) may replace between loop
iterations.  The file content is projected to its task list. -/
structure SystemState where
  appState : AppState
  workspaceTasksJson : Option (List Task)
deriving DecidableEq, Repr

/-- Embeds one task-selection step of Orchestrator.runLoop, Orchestrator.ts
lines 112 to 124: the loop re-reads the project from the StateManager via
getProject and applies getNextTask to its in-memory task list; no read of
the workspace tasks.json occurs in the loop. -/
def selectionStep (sys : SystemState) (projectId : String) : Option Task :=
  match getProject sys.appState projectId with
  | none => none
  | some project => getNextTask project.tasks

/-- Sample backlog task with priority zero, first in insertion order. -/
def sampleA : Task :=
  { id := "A", title := "Task A", status := .backlog, priority := 0,
    attempts := 0, startedAt := none, verifyingAt := none, completedAt := none }

/-- Sample backlog task with priority one, second in insertion order. -/
def sampleB : Task :=
  { sampleA with id := "B", title := "Task B", priority := 1 }

/-- Reordered task list that an external writer places into the workspace
tasks.json: the priorities of the two sample tasks are swapped. -/
def reorderedTasks : List Task :=
  [{ sampleA with priority := 1 }, { sampleB with priority := 0 }]

/-- Sample application state holding one running project with the two
sample tasks. -/
def demoState : AppState :=
  ⟨[], [⟨"P1", "R1", ProjectStatus.running, [sampleA, sampleB]⟩], ⟨3, 3⟩⟩

/-! ### Orchestrator: project completion -/

/-- Uniform git operation result from RepoManager.ts, restricted to the
fields completeProject reads. -/
structure GitResult where
  success : Bool
  output : String
deriving DecidableEq, Repr

/-- Results of the external git and GitHub calls made by
Orchestrator.completeProject, supplied as parameters of the embedding. -/
structure CompleteProjectEnv where
  diffFromBase : GitResult
  remoteBaseExists : Bool
  basePushResult : GitResult
  pushResult : GitResult
  prResult : GitResult
deriving DecidableEq, Repr

/-- Observable outcome of Orchestrator.completeProject: the final project
status written through the StateManager, whether cleanupWorkspace was
invoked, whether the entry was removed from activeProjects, and whether a
pull-request creation was attempted. -/
structure CompleteProjectOutcome where
  projectStatus : ProjectStatus
  workspaceCleaned : Bool
  entryRemoved : Bool
  prAttempted : Bool
deriving DecidableEq, Repr

/-- Embeds Orchestrator.completeProject, Orchestrator.ts lines 434 to 527:
count done and blocked tasks; with no done task, set the project failed
when a blocked task exists and completed otherwise, remove the entry, and
return without cleaning the workspace; with an empty diff against the base
branch, mark completed and clean; on a failed base-branch or working-
branch push, mark failed and clean; otherwise attempt the pull request and
mark completed on success and failed on failure, cleaning either way. -/
def completeProject (tasks : List Task) (env : CompleteProjectEnv) : CompleteProjectOutcome :=
  let completedTasks := tasks.filter (fun t => decide (t.status = .done))
  let blockedTasks := tasks.filter (fun t => decide (t.status = .blocked))
  if completedTasks.length = 0 then
    { projectStatus := if blockedTasks.length > 0 then .failed else .completed
      workspaceCleaned := false, entryRemoved := true, prAttempted := false }
  else if env.diffFromBase.success && trimmedEmpty env.diffFromBase.output then
    { projectStatus := .completed, workspaceCleaned := true, entryRemoved := true,
      prAttempted := false }
  else if !env.remoteBaseExists && !env.basePushResult.success then
    { projectStatus := .failed, workspaceCleaned := true, entryRemoved := true,
      prAttempted := false }
  else if !env.pushResult.success then
    { projectStatus := .failed, workspaceCleaned := true, entryRemoved := true,
      prAttempted := false }
  else
    { projectStatus := if env.prResult.success then .completed else .failed
      workspaceCleaned := true, entryRemoved := true, prAttempted := true }

/-! ### ProcessManager: output parsing -/

/-- Status field of a ClaudeProcess in ProcessManager.ts. -/
inductive ClaudeProcessStatus where
  | running
  | completed
  | failed
  | stopped
deriving DecidableEq, Repr

/-- Result record returned by ProcessManager.waitForProcess, from
ProcessManager.ts lines 26 to 32.  The blockedReason extraction (a regular
expression capture, lines 200 to 206) is not referenced by any claim under
verification and is omitted. -/
structure ProcessResult where
  success : Bool
  output : String
  taskComplete : Bool
  taskBlocked : Bool
deriving DecidableEq, Repr

/-- Embeds ProcessManager.parseProcessResult, ProcessManager.ts lines 188
to 215: the completion flag is set when the output contains TASK_COMPLETE,
DONE, or the phrase Task completed; the blocked flag is set when the output
contains TASK_BLOCKED or BLOCKED; taskComplete is the completion flag
masked by the negation of the blocked flag. -/
def parseProcessResult (status : ClaudeProcessStatus) (output : String) : ProcessResult :=
  let isComplete := includes output "TASK_COMPLETE" || includes output "DONE" ||
    includes output "Task completed"
  let isBlocked := includes output "TASK_BLOCKED" || includes output "BLOCKED"
  { success := decide (status = .completed)
    output := output
    taskComplete := isComplete && !isBlocked
    taskBlocked := isBlocked }

/-! ### Verifier: self-review verdict parsing -/

/-- Embeds the verdict computation of Verifier.runSelfReview, Verifier.ts
lines 206 to 232: an explicit VERIFICATION_PASSED marker yields passed,
an explicit VERIFICATION_FAILED marker yields failed, otherwise lenient
heuristics over the lowercased output are consulted and the result
defaults to passed.  The reason extraction for the failed case is not
referenced by any claim under verification and is omitted. -/
def runSelfReviewVerdict (output : String) : Bool :=
  if includes output "VERIFICATION_PASSED" then true
  else if includes output "VERIFICATION_FAILED" then false
  else
    let lowerOutput := toLowerCase output
    if includes lowerOutput "all criteria met" ||
       includes lowerOutput "acceptance criteria are met" ||
       includes lowerOutput "looks good" ||
       includes lowerOutput "verified" then true
    else true

theorem runSelfReviewVerdict_eq_false_iff (output : String) :
    runSelfReviewVerdict output = false ↔
      ("VERIFICATION_FAILED".data <:+: output.data ∧
       ¬ "VERIFICATION_PASSED".data <:+: output.data) := by
  unfold runSelfReviewVerdict
  by_cases hp : "VERIFICATION_PASSED".data <:+: output.data
  · rw [if_pos ((includes_eq_true_iff _ _).mpr hp)]
    simp [hp]
  · rw [if_neg]
    · by_cases hf : "VERIFICATION_FAILED".data <:+: output.data
      · rw [if_pos ((includes_eq_true_iff _ _).mpr hf)]
        simp [hp, hf]
      · rw [if_neg]
        · simp [ite_self, hf]
        · simp [includes, hf]
    · simp [includes, hp]

/-! ### Orchestrator: admission control and parallel cap -/

/-- Status of an activeProjects entry, Orchestrator.ts lines 7 to 12.  The
transient pre-running value, spelled initializing in the source, is named
starting here. -/
inductive EntryStatus where
  | starting
  | running
  | paused
  | stopped
  | completed
  | failed
deriving DecidableEq, Repr

/-- Orchestrator instance state for admission control: the cached
maxParallelProjects setting (Orchestrator.ts lines 16 to 21), the ids of
the projects known to the StateManager, and the activeProjects map as an
insertion-ordered association list. -/
structure OrchState where
  maxParallelProjects : Nat
  projectIds : List String
  activeProjects : List (String × EntryStatus)
deriving DecidableEq, Repr

/-- Embeds the running-entry count of Orchestrator.startProject,
Orchestrator.ts lines 53 to 55. -/
def runningCount (s : OrchState) : Nat :=
  s.activeProjects.countP (fun e => decide (e.2 = EntryStatus.running))

/-- Embeds Orchestrator.startProject, Orchestrator.ts lines 38 to 81,
together with the synchronous prefix of runLoop, lines 86 to 93: the call
fails when the project is unknown, when an entry already exists, or when
the running-entry count has reached the cap; otherwise it registers an
entry and launches the loop.  The entry is registered as starting and the
prefix of runLoop executed before its first await sets it to running; no
interleaving point separates the two writes in the single-threaded event
loop, so the model performs them as one atomic step that inserts the entry
as running. -/
def startProject (s : OrchState) (projectId : String) : Bool × OrchState :=
  if s.projectIds.contains projectId = false then (false, s)
  else if (s.activeProjects.lookup projectId).isSome then (false, s)
  else if s.maxParallelProjects ≤ runningCount s then (false, s)
  else (true, { s with activeProjects := (projectId, .running) :: s.activeProjects })

/-- Removal of an entry from activeProjects, as performed by
activeProjects.delete in stopProject and completeProject. -/
def removeEntry (s : OrchState) (projectId : String) : OrchState :=
  { s with activeProjects := s.activeProjects.filter (fun e => !(e.1 == projectId)) }

/-- In-place status update of an entry, as performed by the assignments to
orchestratorState.status. -/
def setEntryStatus (s : OrchState) (projectId : String) (status : EntryStatus) : OrchState :=
  { s with activeProjects :=
      s.activeProjects.map (fun e => if e.1 == projectId then (e.1, status) else e) }

/-- Embeds Orchestrator.stopProject, Orchestrator.ts lines 532 to 567,
restricted to its effect on activeProjects: with no entry the call fails;
otherwise the entry status is set to stopped and the entry is deleted, a
net removal. -/
def stopProject (s : OrchState) (projectId : String) : Bool × OrchState :=
  if (s.activeProjects.lookup projectId).isSome then (true, removeEntry s projectId)
  else (false, s)

/-- Embeds Orchestrator.pauseProject, Orchestrator.ts lines 572 to 585:
fails unless the entry exists with status running, else flips it to
paused. -/
def pauseProject (s : OrchState) (projectId : String) : Bool × OrchState :=
  match s.activeProjects.lookup projectId with
  | some EntryStatus.running => (true, setEntryStatus s projectId EntryStatus.paused)
  | _ => (false, s)

/-- Transitions of the Orchestrator entry map: the public operations
start, stop and pause, and the loop-internal transitions in which the loop
observes a pause (runLoop lines 117 to 121), completeProject removes the
entry, or handleError marks it failed.  resumeProject delegates to
startProject and is covered by the start step. -/
inductive OrchStep : OrchState → OrchState → Prop where
  | start (s : OrchState) (projectId : String) : OrchStep s (startProject s projectId).2
  | stop (s : OrchState) (projectId : String) : OrchStep s (stopProject s projectId).2
  | pause (s : OrchState) (projectId : String) : OrchStep s (pauseProject s projectId).2
  | loopPauses (s : OrchState) (projectId : String) :
      OrchStep s (setEntryStatus s projectId EntryStatus.paused)
  | loopCompletes (s : OrchState) (projectId : String) : OrchStep s (removeEntry s projectId)
  | loopFails (s : OrchState) (projectId : String) :
      OrchStep s (setEntryStatus s projectId EntryStatus.failed)

/-- States reachable from a freshly constructed Orchestrator, whose
activeProjects map is empty, by any sequence of transitions. -/
inductive Reachable : OrchState → Prop where
  | init (maxParallelProjects : Nat) (projectIds : List String) :
      Reachable ⟨maxParallelProjects, projectIds, []⟩
  | step {s s' : OrchState} : Reachable s → OrchStep s s' → Reachable s'

/-- Invariant: the running-entry count respects the cap and the entry keys
are duplicate free. -/
def OrchInv (s : OrchState) : Prop :=
  runningCount s ≤ s.maxParallelProjects ∧ (s.activeProjects.map Prod.fst).Nodup

theorem lookup_eq_none_iff_keys {β : Type} :
    ∀ (l : List (String × β)) (a : String), l.lookup a = none ↔ a ∉ l.map Prod.fst := by
  intro l a
  induction l with
  | nil => simp
  | cons e l ih =>
    obtain ⟨k, b⟩ := e
    rw [List.lookup_cons]
    by_cases h : a = k
    · subst h
      simp
    · have hbeq : (a == k) = false := beq_eq_false_iff_ne.mpr h
      rw [hbeq]
      show List.lookup a l = none ↔ _
      rw [ih]
      simp [h]

theorem lookup_some_decomp {β : Type} :
    ∀ (l : List (String × β)) (a : String) (b : β), l.lookup a = some b →
      ∃ l₁ l₂, l = l₁ ++ (a, b) :: l₂ ∧ a ∉ l₁.map Prod.fst := by
  intro l
  induction l with
  | nil => intro a b h; simp at h
  | cons e l ih =>
    intro a b h
    obtain ⟨k, c⟩ := e
    rw [List.lookup_cons] at h
    by_cases hk : a = k
    · subst hk
      simp only [beq_self_eq_true] at h
      have hbc : c = b := by
        have : some c = some b := h
        exact Option.some.inj this
      subst hbc
      exact ⟨[], l, rfl, by simp⟩
    · have hbeq : (a == k) = false := beq_eq_false_iff_ne.mpr hk
      rw [hbeq] at h
      rcases ih a b h with ⟨l₁, l₂, hdec, hnot⟩
      refine ⟨(k, c) :: l₁, l₂, by simp [hdec], ?_⟩
      simp only [List.map_cons, List.mem_cons]
      rintro (rfl | hmem)
      · exact hk rfl
      · exact hnot hmem

theorem countP_map_le {α : Type} (f : α → α) (p : α → Bool)
    (h : ∀ x, p (f x) = true → p x = true) :
    ∀ l : List α, (l.map f).countP p ≤ l.countP p := by
  intro l
  induction l with
  | nil => simp
  | cons x l ih =>
    simp only [List.map_cons, List.countP_cons]
    by_cases hx : p (f x) = true
    · have hx' := h x hx
      rw [if_pos hx, if_pos hx']
      omega
    · by_cases hx2 : p x = true
      · rw [if_neg hx, if_pos hx2]
        omega
      · rw [if_neg hx, if_neg hx2]
        omega

theorem countP_map_update_le (projectId : String) (status : EntryStatus)
    (hst : status ≠ EntryStatus.running) :
    ∀ l : List (String × EntryStatus),
      (l.map (fun e => if e.1 == projectId then (e.1, status) else e)).countP
          (fun e => decide (e.2 = EntryStatus.running)) ≤
        l.countP (fun e => decide (e.2 = EntryStatus.running)) := by
  apply countP_map_le
  intro e he
  by_cases hk : (e.1 == projectId) = true
  · rw [if_pos hk] at he
    simp only [decide_eq_true_eq] at he
    exact absurd he hst
  · rwa [if_neg hk] at he

theorem keys_map_update (projectId : String) (status : EntryStatus) :
    ∀ l : List (String × EntryStatus),
      (l.map (fun e => if e.1 == projectId then (e.1, status) else e)).map Prod.fst =
        l.map Prod.fst := by
  intro l
  induction l with
  | nil => simp
  | cons e l ih =>
    simp only [List.map_cons, ih]
    by_cases he : (e.1 == projectId) = true
    · rw [if_pos he]
    · rw [if_neg (by simpa using he)]

theorem inv_setEntryStatus (s : OrchState) (projectId : String) (status : EntryStatus)
    (hst : status ≠ EntryStatus.running) (h : OrchInv s) :
    OrchInv (setEntryStatus s projectId status) := by
  constructor
  · calc runningCount (setEntryStatus s projectId status)
        ≤ runningCount s := countP_map_update_le projectId status hst s.activeProjects
      _ ≤ s.maxParallelProjects := h.1
  · show ((s.activeProjects.map _).map Prod.fst).Nodup
    rw [keys_map_update]
    exact h.2

theorem inv_removeEntry (s : OrchState) (projectId : String) (h : OrchInv s) :
    OrchInv (removeEntry s projectId) := by
  constructor
  · calc runningCount (removeEntry s projectId)
        ≤ runningCount s := (List.filter_sublist s.activeProjects).countP_le _
      _ ≤ s.maxParallelProjects := h.1
  · exact h.2.sublist ((List.filter_sublist s.activeProjects).map Prod.fst)

theorem runningCount_cons_running (s : OrchState) (projectId : String) :
    runningCount { s with activeProjects := (projectId, EntryStatus.running) :: s.activeProjects }
      = runningCount s + 1 := by
  unfold runningCount
  simp [List.countP_cons]

theorem inv_startProject (s : OrchState) (projectId : String) (h : OrchInv s) :
    OrchInv (startProject s projectId).2 := by
  unfold startProject
  by_cases h1 : s.projectIds.contains projectId = false
  · rw [if_pos h1]; exact h
  · rw [if_neg h1]
    by_cases h2 : (s.activeProjects.lookup projectId).isSome
    · rw [if_pos h2]; exact h
    · rw [if_neg h2]
      by_cases h3 : s.maxParallelProjects ≤ runningCount s
      · rw [if_pos h3]; exact h
      · rw [if_neg h3]
        have hnone : s.activeProjects.lookup projectId = none :=
          Option.not_isSome_iff_eq_none.mp h2
        have hnotmem : projectId ∉ s.activeProjects.map Prod.fst :=
          (lookup_eq_none_iff_keys _ _).mp hnone
        refine ⟨?_, ?_⟩
        · show runningCount
            { s with activeProjects := (projectId, EntryStatus.running) :: s.activeProjects }
            ≤ s.maxParallelProjects
          rw [runningCount_cons_running]
          omega
        · show (((projectId, EntryStatus.running) :: s.activeProjects).map Prod.fst).Nodup
          simpa [List.nodup_cons] using And.intro hnotmem h.2

theorem inv_stopProject (s : OrchState) (projectId : String) (h : OrchInv s) :
    OrchInv (stopProject s projectId).2 := by
  unfold stopProject
  by_cases h2 : (s.activeProjects.lookup projectId).isSome
  · rw [if_pos h2]; exact inv_removeEntry s projectId h
  · rw [if_neg h2]; exact h

theorem inv_pauseProject (s : OrchState) (projectId : String) (h : OrchInv s) :
    OrchInv (pauseProject s projectId).2 := by
  unfold pauseProject
  cases hl : s.activeProjects.lookup projectId with
  | none => exact h
  | some st =>
    cases st with
    | running => exact inv_setEntryStatus s projectId EntryStatus.paused (by simp) h
    | starting => exact h
    | paused => exact h
    | stopped => exact h
    | completed => exact h
    | failed => exact h

theorem reachable_inv (s : OrchState) (h : Reachable s) : OrchInv s := by
  induction h with
  | init maxParallelProjects projectIds =>
    exact ⟨by simp [runningCount], by simp⟩
  | step _ hstep ih =>
    cases hstep with
    | start projectId => exact inv_startProject _ projectId ih
    | stop projectId => exact inv_stopProject _ projectId ih
    | pause projectId => exact inv_pauseProject _ projectId ih
    | loopPauses projectId => exact inv_setEntryStatus _ projectId EntryStatus.paused (by simp) ih
    | loopCompletes projectId => exact inv_removeEntry _ projectId ih
    | loopFails projectId => exact inv_setEntryStatus _ projectId EntryStatus.failed (by simp) ih

theorem remove_entry_decomp (l : List (String × EntryStatus)) (q : String) (b : EntryStatus)
    (hnd : (l.map Prod.fst).Nodup) (hl : l.lookup q = some b) :
    ∃ l₁ l₂, l = l₁ ++ (q, b) :: l₂ ∧
      l.filter (fun e => !(e.1 == q)) = l₁ ++ l₂ ∧
      q ∉ l₁.map Prod.fst ∧ q ∉ l₂.map Prod.fst := by
  rcases lookup_some_decomp l q b hl with ⟨l₁, l₂, hdec, hq1⟩
  have hq2 : q ∉ l₂.map Prod.fst := by
    rw [hdec, List.map_append, List.map_cons] at hnd
    have hmid := List.nodup_cons.mp (List.nodup_middle.mp hnd)
    intro hq
    exact hmid.1 (List.mem_append.mpr (Or.inr hq))
  refine ⟨l₁, l₂, hdec, ?_, hq1, hq2⟩
  have hkeep : ∀ (m : List (String × EntryStatus)), q ∉ m.map Prod.fst →
      m.filter (fun e => !(e.1 == q)) = m := by
    intro m hm
    rw [List.filter_eq_self]
    intro e he
    have hne : e.1 ≠ q := fun hcontra => hm (List.mem_map.mpr ⟨e, he, hcontra⟩)
    simp [hne]
  rw [hdec, List.filter_append, hkeep l₁ hq1, List.filter_cons]
  simp [hkeep l₂ hq2]

theorem runningCount_remove_running (s : OrchState) (q : String)
    (hnd : (s.activeProjects.map Prod.fst).Nodup)
    (hl : s.activeProjects.lookup q = some EntryStatus.running) :
    runningCount (removeEntry s q) + 1 = runningCount s := by
  rcases remove_entry_decomp s.activeProjects q _ hnd hl with ⟨l₁, l₂, hdec, hfil, _, _⟩
  show (s.activeProjects.filter (fun e => !(e.1 == q))).countP
      (fun e => decide (e.2 = EntryStatus.running)) + 1 =
    s.activeProjects.countP (fun e => decide (e.2 = EntryStatus.running))
  rw [hfil, hdec]
  rw [List.countP_append, List.countP_append, List.countP_cons]
  simp
  omega

theorem lookup_filter_ne_none {β : Type} (l : List (String × β)) (projectId q : String)
    (h : l.lookup projectId = none) :
    (l.filter (fun e => !(e.1 == q))).lookup projectId = none := by
  rw [lookup_eq_none_iff_keys] at h ⊢
  intro hmem
  apply h
  rcases List.mem_map.mp hmem with ⟨e, he, rfl⟩
  exact List.mem_map.mpr ⟨e, (List.mem_filter.mp he).1, rfl⟩

theorem startProject_success (s : OrchState) (projectId : String)
    (h1 : s.projectIds.contains projectId = true)
    (h2 : s.activeProjects.lookup projectId = none)
    (h3 : runningCount s < s.maxParallelProjects) :
    startProject s projectId =
      (true, { s with activeProjects := (projectId, EntryStatus.running) :: s.activeProjects }) := by
  unfold startProject
  rw [if_neg (by rw [h1]; simp), if_neg (by simp [h2]), if_neg (by omega)]

/-! ### Supporting list lemmas -/

theorem eraseIdx_of_findIdx? {α : Type} (p : α → Bool) :
    ∀ (l : List α) (i : Nat), l.findIdx? p = some i →
      l.eraseIdx i = l.eraseP p ∧ i < l.length := by
  intro l
  induction l with
  | nil => intro i h; simp at h
  | cons x xs ih =>
    intro i h
    rw [List.findIdx?_cons] at h
    by_cases hx : p x
    · rw [if_pos hx] at h
      cases h
      simp [List.eraseP_cons, hx]
    · rw [if_neg hx, List.findIdx?_succ] at h
      rcases Option.map_eq_some'.mp h with ⟨j, hj, rfl⟩
      rcases ih j hj with ⟨hje, hjl⟩
      refine ⟨?_, by simpa using hjl⟩
      simp [List.eraseP_cons, hx, hje]

end Ralph

/-! ## Claim theorems -/

namespace Ralph

/-- The blocked-path step increments the stored attempts counter, yet
decides exhaustion on the attempts value from before the increment, so
the transition to blocked fires one iteration later than an exhaustion
check on the stored counter would. -/
theorem workOnTaskBlockedStep_spec (maxTaskAttempts now : Nat) (t : Task) :
    (workOnTaskBlockedStep maxTaskAttempts now t).attempts = t.attempts + 1 ∧
    (workOnTaskBlockedStep maxTaskAttempts now t).status =
      (if maxTaskAttempts ≤ t.attempts then TaskStatus.blocked else TaskStatus.in_progress) ∧
    (maxTaskAttempts ≤ t.attempts →
      (workOnTaskBlockedStep maxTaskAttempts now t).completedAt = some now) ∧
    (t.attempts < maxTaskAttempts →
      (workOnTaskBlockedStep maxTaskAttempts now t).completedAt = none) := by
  unfold workOnTaskBlockedStep
  by_cases h : maxTaskAttempts ≤ t.attempts
  · simp [h]
  · simp [h, Nat.lt_of_not_le h]

/-- C1: evaluation of the blocked path at the failing input.  With
maxTaskAttempts equal to three and an agent that always reports
TASK_BLOCKED, the claim and the spec expect the task to reach status
blocked on its third attempt with attempts equal to three; the code
instead leaves the task in_progress with attempts equal to three after
the third attempt, and blocks it only on the fourth attempt with attempts
equal to four, because the exhaustion check reads the attempts snapshot
captured before the increment. -/
theorem C1_blocked_accounting :
    (blockedRun 3 3 freshTask).status = TaskStatus.in_progress ∧
    (blockedRun 3 3 freshTask).attempts = 3 ∧
    (blockedRun 3 4 freshTask).status = TaskStatus.blocked ∧
    (blockedRun 3 4 freshTask).attempts = 4 ∧
    (blockedRun 3 4 freshTask).completedAt = some 4 := by
  decide

/-- C2 counterexample: the claim states that no substring other than
TASK_COMPLETE makes taskComplete true, but parseProcessResult also accepts
the substring DONE: on the output DONE the parser reports taskComplete even
though the output does not contain TASK_COMPLETE and is not blocked. -/
theorem C2_counterexample :
    (parseProcessResult .completed "DONE").taskComplete = true ∧
    includes "DONE" "TASK_COMPLETE" = false ∧
    (parseProcessResult .completed "DONE").taskBlocked = false := by
  decide

/-- C2 amended: for every agent output, taskBlocked holds exactly when the
output contains TASK_BLOCKED or BLOCKED, and taskComplete holds exactly
when the output contains TASK_COMPLETE, DONE, or the phrase Task completed,
and taskBlocked does not hold. -/
theorem C2_amended (status : ClaudeProcessStatus) (output : String) :
    ((parseProcessResult status output).taskBlocked = true ↔
      ("TASK_BLOCKED".data <:+: output.data ∨ "BLOCKED".data <:+: output.data)) ∧
    ((parseProcessResult status output).taskComplete = true ↔
      (("TASK_COMPLETE".data <:+: output.data ∨ "DONE".data <:+: output.data ∨
        "Task completed".data <:+: output.data) ∧
       (parseProcessResult status output).taskBlocked = false)) := by
  constructor
  · simp [parseProcessResult, includes]
  · simp [parseProcessResult, includes, Bool.and_eq_true, Bool.not_eq_true', or_assoc]

/-- C7: the self-review verdict is lenient.  The verdict is failed only
when the output carries a VERIFICATION_FAILED marker and no
VERIFICATION_PASSED marker; consequently every output with neither marker
passes (heuristics and default both yield passed), and in particular an
output containing the word verified with no VERIFICATION_FAILED marker
yields a passed verdict. -/
theorem C7_lenient_fallback (output : String) :
    (¬ "VERIFICATION_PASSED".data <:+: output.data →
     ¬ "VERIFICATION_FAILED".data <:+: output.data →
      runSelfReviewVerdict output = true) ∧
    ("verified".data <:+: output.data →
     ¬ "VERIFICATION_FAILED".data <:+: output.data →
      runSelfReviewVerdict output = true) := by
  have key : ∀ h : ¬ "VERIFICATION_FAILED".data <:+: output.data,
      runSelfReviewVerdict output = true := by
    intro h
    rcases hb : runSelfReviewVerdict output with _ | _
    · exact absurd ((runSelfReviewVerdict_eq_false_iff output).mp hb).1 h
    · rfl
  exact ⟨fun _ h => key h, fun _ h => key h⟩

/-- C7 witness: the concrete output consisting of the word verified
contains the word verified, carries no VERIFICATION_FAILED marker, and
receives a passed verdict. -/
theorem C7_witness : runSelfReviewVerdict "verified" = true :=
  (C7_lenient_fallback "verified").2 (by decide) (by decide)

/-- C10: when a self-review output contains both the VERIFICATION_PASSED
and the VERIFICATION_FAILED marker, the verdict is passed, because the
passed check is evaluated first. -/
theorem C10_passed_marker_precedence (output : String) :
    "VERIFICATION_PASSED".data <:+: output.data →
    "VERIFICATION_FAILED".data <:+: output.data →
    runSelfReviewVerdict output = true := by
  intro hp _
  unfold runSelfReviewVerdict
  rw [if_pos ((includes_eq_true_iff _ _).mpr hp)]

/-- C10 witness: a concrete output containing both markers receives a
passed verdict. -/
theorem C10_witness :
    runSelfReviewVerdict "VERIFICATION_PASSED then VERIFICATION_FAILED" = true :=
  C10_passed_marker_precedence "VERIFICATION_PASSED then VERIFICATION_FAILED"
    (by decide) (by decide)

/-- C4 counterexample: the claim states that every engine write of the
workspace tasks.json goes through a temporary file followed by a rename,
but on a resolved workspace with an existing ralph directory the operation
trace of writeWorkspaceTasks is a single direct write to tasks.json and
contains no rename. -/
theorem C4_counterexample :
    (writeWorkspaceTasks (some "ws/.ralph") true "SERIALIZED").2 =
      [FsOp.writeFileSync "ws/.ralph/tasks.json" "SERIALIZED"] ∧
    (writeWorkspaceTasks (some "ws/.ralph") true "SERIALIZED").2.any FsOp.isRename = false := by
  constructor
  · rfl
  · rfl

/-- C4 amended: writeWorkspaceTasks creates the ralph directory when it is
missing and then performs a single direct whole-file write of the
serialized data to tasks.json; no temporary file and no rename occur, so
the temp-plus-rename atomicity mechanism named by the claim is absent.
When the workspace path does not resolve, the call fails with no
filesystem operation. -/
theorem C4_amended (rp : String) (ralphDirExists : Bool) (serialized : String) :
    (writeWorkspaceTasks (some rp) ralphDirExists serialized).1 = true ∧
    (writeWorkspaceTasks (some rp) ralphDirExists serialized).2 =
      (if ralphDirExists then [] else [FsOp.mkdirRecursive rp]) ++
        [FsOp.writeFileSync (joinPath rp "tasks.json") serialized] ∧
    (writeWorkspaceTasks (some rp) ralphDirExists serialized).2.any FsOp.isRename = false ∧
    writeWorkspaceTasks none ralphDirExists serialized = (false, []) := by
  refine ⟨rfl, rfl, ?_, rfl⟩
  cases ralphDirExists <;> simp [writeWorkspaceTasks, FsOp.isRename]

/-- C8 counterexample: the claim states that when the task list drains
with zero done tasks the completion step cleans the workspace, but on a
project whose single task is blocked, completeProject marks the project
failed and removes the entry without invoking cleanupWorkspace. -/
theorem C8_counterexample :
    completeProject [{ freshTask with status := TaskStatus.blocked }]
        ⟨⟨true, ""⟩, true, ⟨true, ""⟩, ⟨true, ""⟩, ⟨true, ""⟩⟩ =
      { projectStatus := .failed, workspaceCleaned := false, entryRemoved := true,
        prAttempted := false } := by
  decide

/-- C8 amended: when the task list drains with zero done tasks, the
completion step sets the project status to completed when there are also
zero blocked tasks and to failed otherwise, removes the orchestrator
entry, skips pull-request creation, and does not clean the workspace in
this branch. -/
theorem C8_amended (tasks : List Task) (env : CompleteProjectEnv) :
    (∀ t ∈ tasks, t.status ≠ TaskStatus.done) →
    completeProject tasks env =
      { projectStatus :=
          if (tasks.filter (fun t => decide (t.status = TaskStatus.blocked))).length > 0
          then ProjectStatus.failed else ProjectStatus.completed
        workspaceCleaned := false, entryRemoved := true, prAttempted := false } := by
  intro h
  have hfilter : tasks.filter (fun t => decide (t.status = TaskStatus.done)) = [] :=
    List.filter_eq_nil_iff.mpr (by simpa using h)
  simp [completeProject, hfilter]

/-- C8 witness: the amended completion rule evaluated on a concrete
drained task list with one blocked task and one backlog-free done-free
task. -/
theorem C8_witness :
    completeProject [{ freshTask with status := TaskStatus.blocked }, freshTask]
        ⟨⟨true, "diff"⟩, true, ⟨true, ""⟩, ⟨true, ""⟩, ⟨true, ""⟩⟩ =
      { projectStatus := .failed, workspaceCleaned := false, entryRemoved := true,
        prAttempted := false } :=
  (C8_amended [{ freshTask with status := TaskStatus.blocked }, freshTask]
      ⟨⟨true, "diff"⟩, true, ⟨true, ""⟩, ⟨true, ""⟩, ⟨true, ""⟩⟩ (by decide)).trans
    (by decide)

/-- C6: task selection returns a task in in_progress when one exists,
else a task in verifying when one exists, else the first backlog task of
minimum priority with equal-priority ties resolved by insertion order,
and returns none exactly when no task is in in_progress, verifying or
backlog. -/
theorem C6_task_selection (tasks : List Task) :
    ((∃ t ∈ tasks, t.status = TaskStatus.in_progress) →
      ∃ t, getNextTask tasks = some t ∧ t ∈ tasks ∧ t.status = TaskStatus.in_progress) ∧
    ((∀ t ∈ tasks, t.status ≠ TaskStatus.in_progress) →
     (∃ t ∈ tasks, t.status = TaskStatus.verifying) →
      ∃ t, getNextTask tasks = some t ∧ t ∈ tasks ∧ t.status = TaskStatus.verifying) ∧
    ((∀ t ∈ tasks, t.status ≠ TaskStatus.in_progress ∧ t.status ≠ TaskStatus.verifying) →
      getNextTask tasks =
        lowestPriorityFirst (tasks.filter (fun t => decide (t.status = TaskStatus.backlog)))) ∧
    (getNextTask tasks = none ↔
      ∀ t ∈ tasks, t.status ≠ TaskStatus.in_progress ∧ t.status ≠ TaskStatus.verifying ∧
        t.status ≠ TaskStatus.backlog) ∧
    (∀ m, lowestPriorityFirst (tasks.filter (fun t => decide (t.status = TaskStatus.backlog)))
        = some m →
      m ∈ tasks ∧ m.status = TaskStatus.backlog ∧
      ∀ u ∈ tasks, u.status = TaskStatus.backlog → m.priority ≤ u.priority) := by
  refine ⟨?_, ?_, getNextTask_of_no_active tasks, ?_, ?_⟩
  · rintro ⟨t, ht, hs⟩
    cases hf : tasks.find? (fun t => decide (t.status = TaskStatus.in_progress)) with
    | none =>
      rw [List.find?_eq_none] at hf
      exact absurd (by simpa using hs) (by simpa using hf t ht)
    | some u =>
      exact ⟨u, by simp [getNextTask, hf], List.mem_of_find?_eq_some hf,
        by simpa using List.find?_some hf⟩
  · rintro hno ⟨t, ht, hs⟩
    have hfIn : tasks.find? (fun t => decide (t.status = TaskStatus.in_progress)) = none :=
      List.find?_eq_none.mpr (fun x hx => by simpa using hno x hx)
    cases hf : tasks.find? (fun t => decide (t.status = TaskStatus.verifying)) with
    | none =>
      rw [List.find?_eq_none] at hf
      exact absurd (by simpa using hs) (by simpa using hf t ht)
    | some u =>
      exact ⟨u, by simp [getNextTask, hfIn, hf], List.mem_of_find?_eq_some hf,
        by simpa using List.find?_some hf⟩
  · constructor
    · intro h
      cases hfIn : tasks.find? (fun t => decide (t.status = TaskStatus.in_progress)) with
      | some u => simp [getNextTask, hfIn] at h
      | none =>
        cases hfVer : tasks.find? (fun t => decide (t.status = TaskStatus.verifying)) with
        | some u => simp [getNextTask, hfIn, hfVer] at h
        | none =>
          simp only [getNextTask, hfIn, hfVer, head?_mergeSort_taskPriorityLE] at h
          have hnil : tasks.filter (fun t => decide (t.status = TaskStatus.backlog)) = [] :=
            (lowestPriorityFirst_eq_none_iff _).mp h
          rw [List.filter_eq_nil_iff] at hnil
          rw [List.find?_eq_none] at hfIn hfVer
          intro t ht
          exact ⟨by simpa using hfIn t ht, by simpa using hfVer t ht,
            by simpa using hnil t ht⟩
    · intro h
      have hfIn : tasks.find? (fun t => decide (t.status = TaskStatus.in_progress)) = none :=
        List.find?_eq_none.mpr (fun x hx => by simpa using (h x hx).1)
      have hfVer : tasks.find? (fun t => decide (t.status = TaskStatus.verifying)) = none :=
        List.find?_eq_none.mpr (fun x hx => by simpa using (h x hx).2.1)
      have hnil : tasks.filter (fun t => decide (t.status = TaskStatus.backlog)) = [] :=
        List.filter_eq_nil_iff.mpr (fun x hx => by simpa using (h x hx).2.2)
      simp [getNextTask, hfIn, hfVer, hnil]
  · intro m hm
    rcases lowestPriorityFirst_spec _ m hm with ⟨hmem, hmin⟩
    rcases List.mem_filter.mp hmem with ⟨hmemT, hback⟩
    refine ⟨hmemT, by simpa using hback, ?_⟩
    intro u hu hub
    exact hmin u (List.mem_filter.mpr ⟨hu, by simpa using hub⟩)

/-- C6 witness: on a concrete backlog with priorities one, zero, zero the
selection returns the earlier of the two priority-zero tasks, and on a
list with an in_progress task the selection returns an in_progress task. -/
theorem C6_witness :
    getNextTask [sampleB, sampleA, { sampleA with id := "C", title := "Task C" }] =
      some sampleA ∧
    (∃ t, getNextTask [{ sampleA with status := TaskStatus.in_progress }, sampleB] = some t ∧
      t ∈ [{ sampleA with status := TaskStatus.in_progress }, sampleB] ∧
      t.status = TaskStatus.in_progress) :=
  ⟨((C6_task_selection [sampleB, sampleA, { sampleA with id := "C", title := "Task C" }]).2.2.1
      (by decide)).trans (by decide),
   (C6_task_selection [{ sampleA with status := TaskStatus.in_progress }, sampleB]).1
      ⟨{ sampleA with status := TaskStatus.in_progress }, by decide, by decide⟩⟩

/-- C3 counterexample: the claim states that the selection step re-reads
the workspace tasks.json and observes an external reordering of the
priorities, but after an external writer replaces the workspace file with
the reordered task list, the selection step still returns the task that
the in-memory StateManager content prescribes, not the task the new file
content prescribes. -/
theorem C3_counterexample :
    selectionStep ⟨demoState, some reorderedTasks⟩ "P1" = some sampleA ∧
    getNextTask reorderedTasks = some { sampleB with priority := 0 } ∧
    sampleA ≠ { sampleB with priority := 0 } := by
  refine ⟨?_, ?_, by decide⟩
  · have hproj : getProject demoState "P1" =
        some ⟨"P1", "R1", ProjectStatus.running, [sampleA, sampleB]⟩ := by decide
    simp only [selectionStep, hproj]
    rw [getNextTask_of_no_active _ (by decide)]
    decide
  · rw [getNextTask_of_no_active _ (by decide)]
    decide

/-- C3 amended: before every task-selection step the loop re-reads the
project, including its task list, from the in-memory StateManager state
and selects from that list; the selection result is independent of the
content of the workspace tasks.json, so external replacements of that
file are not observed by the selection step. -/
theorem C3_amended :
    (∀ (s₁ s₂ : SystemState) (projectId : String), s₁.appState = s₂.appState →
      selectionStep s₁ projectId = selectionStep s₂ projectId) ∧
    (∀ (sys : SystemState) (projectId : String) (p : Project),
      getProject sys.appState projectId = some p →
      selectionStep sys projectId = getNextTask p.tasks) := by
  constructor
  · intro s₁ s₂ projectId h
    simp [selectionStep, h]
  · intro sys projectId p h
    simp [selectionStep, h]

/-- C3 witness: on the concrete system state, replacing the workspace
file content leaves the selection unchanged, and the selection equals the
selection over the in-memory task list of the project. -/
theorem C3_witness :
    selectionStep ⟨demoState, some reorderedTasks⟩ "P1" =
      selectionStep ⟨demoState, none⟩ "P1" ∧
    selectionStep ⟨demoState, some reorderedTasks⟩ "P1" = getNextTask [sampleA, sampleB] :=
  ⟨C3_amended.1 ⟨demoState, some reorderedTasks⟩ ⟨demoState, none⟩ "P1" rfl,
   C3_amended.2 ⟨demoState, some reorderedTasks⟩ "P1"
      ⟨"P1", "R1", ProjectStatus.running, [sampleA, sampleB]⟩ (by decide)⟩

/-- C9: deleteRepository fails with the dependents error and leaves the
state unchanged whenever some project references the repository id; when
no project references the id and a repository with the id exists, the call
returns true, leaves projects and settings unchanged, and removes the
first repository carrying the id (the only one, when ids are unique). -/
theorem C9_deleteRepository (state : AppState) (id : String) :
    ((∃ p ∈ state.projects, p.repositoryId = id) →
      deleteRepository state id =
        (state, .error "Cannot delete repository with existing projects")) ∧
    ((∀ p ∈ state.projects, p.repositoryId ≠ id) →
     (∃ r ∈ state.repositories, r.id = id) →
      (deleteRepository state id).2 = .ok true ∧
      (deleteRepository state id).1.projects = state.projects ∧
      (deleteRepository state id).1.settings = state.settings ∧
      (deleteRepository state id).1.repositories =
        state.repositories.eraseP (fun r => decide (r.id = id)) ∧
      (deleteRepository state id).1.repositories.length + 1 = state.repositories.length ∧
      ((state.repositories.map Repository.id).Nodup →
        ∀ r ∈ (deleteRepository state id).1.repositories, r.id ≠ id)) := by
  constructor
  · intro h
    have hany : state.projects.any (fun p => decide (p.repositoryId = id)) = true := by
      rcases h with ⟨p, hp, hid⟩
      exact List.any_eq_true.mpr ⟨p, hp, by simpa using hid⟩
    simp [deleteRepository, hany]
  · intro hnone hex
    have hany : state.projects.any (fun p => decide (p.repositoryId = id)) = false := by
      rw [List.any_eq_false]
      intro p hp
      simpa using hnone p hp
    rcases hex with ⟨r, hr, hrid⟩
    have hfind : state.repositories.findIdx? (fun r => decide (r.id = id)) =
        some (state.repositories.findIdx (fun r => decide (r.id = id))) :=
      List.findIdx?_eq_some_of_exists ⟨r, hr, by simpa using hrid⟩
    rcases eraseIdx_of_findIdx? _ state.repositories _ hfind with ⟨herase, _⟩
    have hres : deleteRepository state id =
        ({ state with repositories :=
            state.repositories.eraseP (fun r => decide (r.id = id)) }, .ok true) := by
      simp [deleteRepository, hany, hfind, herase]
    rcases List.exists_of_eraseP (p := fun r => decide (r.id = id)) hr (by simpa using hrid) with
      ⟨a, l₁, l₂, hl₁, hpa, hdecomp, herased⟩
    refine ⟨by rw [hres], by rw [hres], by rw [hres], by rw [hres], ?_, ?_⟩
    · rw [hres]
      show (List.eraseP (fun r => decide (r.id = id)) state.repositories).length + 1 =
        state.repositories.length
      rw [herased, hdecomp]
      simp only [List.length_append, List.length_cons]
      omega
    · intro hnodup r' hr'
      rw [hres] at hr'
      simp only at hr'
      rw [herased] at hr'
      have haid : a.id = id := by simpa using hpa
      have hnodup' : ((l₁ ++ a :: l₂).map Repository.id).Nodup := by
        rw [← hdecomp]; exact hnodup
      rw [List.map_append, List.map_cons] at hnodup'
      have hnotmem : a.id ∉ (l₁.map Repository.id ++ l₂.map Repository.id) :=
        (List.nodup_cons.mp (List.nodup_middle.mp hnodup')).1
      rcases List.mem_append.mp hr' with hmem | hmem
      · have := hl₁ r' hmem
        simpa using this
      · intro hcontra
        exact hnotmem (List.mem_append.mpr (Or.inr (List.mem_map.mpr ⟨r', hmem, by
          rw [hcontra, haid]⟩)))

/-- C5: in every reachable Orchestrator state the number of running
entries is at most maxParallelProjects; when the running count has reached
the cap, any further start is rejected and leaves the state unchanged; and
after releasing one running entry via stop at the cap, a start of a fresh
known project succeeds while still respecting the cap. -/
theorem C5_parallel_cap :
    (∀ s : OrchState, Reachable s → runningCount s ≤ s.maxParallelProjects) ∧
    (∀ (s : OrchState) (projectId : String),
      s.maxParallelProjects ≤ runningCount s → startProject s projectId = (false, s)) ∧
    (∀ (s : OrchState) (q projectId : String), Reachable s →
      s.activeProjects.lookup q = some EntryStatus.running →
      runningCount s = s.maxParallelProjects →
      s.projectIds.contains projectId = true →
      s.activeProjects.lookup projectId = none →
      (startProject (stopProject s q).2 projectId).1 = true ∧
      runningCount (startProject (stopProject s q).2 projectId).2 ≤ s.maxParallelProjects) := by
  refine ⟨fun s h => (reachable_inv s h).1, ?_, ?_⟩
  · intro s projectId h3
    unfold startProject
    by_cases h1 : s.projectIds.contains projectId = false
    · rw [if_pos h1]
    · rw [if_neg h1]
      by_cases h2 : (s.activeProjects.lookup projectId).isSome
      · rw [if_pos h2]
      · rw [if_neg h2, if_pos h3]
  · intro s q projectId hr hq hcap hpid hnone
    have hnd := (reachable_inv s hr).2
    have hstop : stopProject s q = (true, removeEntry s q) := by
      unfold stopProject
      rw [if_pos (by simp [hq])]
    have hcount : runningCount (removeEntry s q) + 1 = runningCount s :=
      runningCount_remove_running s q hnd hq
    have hnone' : (removeEntry s q).activeProjects.lookup projectId = none :=
      lookup_filter_ne_none s.activeProjects projectId q hnone
    have hsucc := startProject_success (removeEntry s q) projectId hpid hnone' (by
      show runningCount (removeEntry s q) < s.maxParallelProjects
      omega)
    rw [hstop]
    refine ⟨by rw [hsucc], ?_⟩
    rw [hsucc]
    show runningCount { removeEntry s q with
        activeProjects := (projectId, EntryStatus.running) :: (removeEntry s q).activeProjects }
      ≤ s.maxParallelProjects
    rw [runningCount_cons_running]
    omega

/-- C5 witness: with a cap of one and projects p1 and p2, starting p1
reaches a state with one running entry; there the cap invariant holds,
starting p2 is rejected with the state unchanged, and stopping p1 lets a
subsequent start of p2 succeed. -/
theorem C5_witness :
    runningCount (startProject ⟨1, ["p1", "p2"], []⟩ "p1").2 ≤
      (startProject ⟨1, ["p1", "p2"], []⟩ "p1").2.maxParallelProjects ∧
    startProject (startProject ⟨1, ["p1", "p2"], []⟩ "p1").2 "p2" =
      (false, (startProject ⟨1, ["p1", "p2"], []⟩ "p1").2) ∧
    (startProject (stopProject (startProject ⟨1, ["p1", "p2"], []⟩ "p1").2 "p1").2 "p2").1
      = true :=
  ⟨C5_parallel_cap.1 (startProject ⟨1, ["p1", "p2"], []⟩ "p1").2
      (Reachable.step (Reachable.init 1 ["p1", "p2"])
        (OrchStep.start ⟨1, ["p1", "p2"], []⟩ "p1")),
   C5_parallel_cap.2.1 (startProject ⟨1, ["p1", "p2"], []⟩ "p1").2 "p2" (by decide),
   (C5_parallel_cap.2.2 (startProject ⟨1, ["p1", "p2"], []⟩ "p1").2 "p1" "p2"
      (Reachable.step (Reachable.init 1 ["p1", "p2"])
        (OrchStep.start ⟨1, ["p1", "p2"], []⟩ "p1"))
      (by decide) (by decide) (by decide) (by decide)).1⟩

/-- C9 witness: deleting the only repository of a concrete state with no
projects succeeds and empties the repository list. -/
theorem C9_witness :
    (deleteRepository ⟨[⟨"r1", "https://example.com/r1.git"⟩], [], ⟨3, 3⟩⟩ "r1").2 = .ok true ∧
    (deleteRepository ⟨[⟨"r1", "https://example.com/r1.git"⟩], [], ⟨3, 3⟩⟩ "r1").1.repositories
      = [] :=
  ⟨((C9_deleteRepository ⟨[⟨"r1", "https://example.com/r1.git"⟩], [], ⟨3, 3⟩⟩ "r1").2
      (by decide) (by decide)).1, by decide⟩

end Ralph
